import Mathlib

/-!
Verification of the seccomp policy compiler and dynamic-linker cache /
dependency resolver of `sandboxed-tor-browser`.

The Go sources are embedded shallowly:

* `dynlib/cache.go` (package `dynlib`): `getNewLdCache`, `LoadCache` and its
  inner `getString` closure, `Cache.GetLibraryPath`, `Cache.ResolveLibraries`.
* `internal/sandbox/seccomp.go` (package `sandbox`): `installTBLOzWhitelist`
  and `installBasicBlacklist`.

Go's partial operations are modelled explicitly: a slice expression or index
whose bounds Go would reject at run time produces the `GoResult.panic`
outcome, a returned `error` produces `GoResult.err`.  Machine integers are
`Nat` (the Go code never subtracts or overflows on the modelled paths; reads
from buffers are of fixed 32/64-bit little-endian width and therefore
bounded).  External capabilities (libseccomp's name resolver, the filesystem,
the ELF import extractor, symlink resolution) are parameters of the embedded
functions, so every theorem quantifies over their behaviour.
-/

/-- Outcome of running a piece of Go code: a normal value, a returned
`error`, or a run-time panic. -/
inductive GoResult (α : Type) where
  | ok : α → GoResult α
  | err : String → GoResult α
  | panic : GoResult α
deriving DecidableEq, Repr

namespace Dynlib

/-- Little-endian `binary.LittleEndian.Uint32`; every call site in the
embedding bounds-checks (or panics) first, exactly as the Go code. -/
def leU32 : List Nat → Nat
  | b0 :: b1 :: b2 :: b3 :: _ => b0 + 256 * (b1 + 256 * (b2 + 256 * b3))
  | _ => 0

/-- Little-endian `binary.LittleEndian.Uint64`. -/
def leU64 : List Nat → Nat
  | b0 :: b1 :: b2 :: b3 :: b4 :: b5 :: b6 :: b7 :: _ =>
      b0 + 256 * (b1 + 256 * (b2 + 256 * (b3 + 256 *
        (b4 + 256 * (b5 + 256 * (b6 + 256 * b7))))))
  | _ => 0

/-- Go `string(bytes)` for the byte ranges cut out of the string table. -/
def bytesToString (b : List Nat) : String :=
  String.mk (b.map Char.ofNat)

/-- One parsed `ld.so.cache` entry (`cacheEntry` in cache.go). -/
structure CacheEntry where
  key : String
  value : String
  flags : Nat
  osVersion : Nat
  hwcap : Nat
deriving DecidableEq, Repr

/-- `Cache.store`: library name to ordered candidate entries.  Go uses a
`map[string][]*cacheEntry`; the embedding keeps insertion order, which no
verified property depends on. -/
structure Cache where
  store : List (String × List CacheEntry)
deriving DecidableEq, Repr

/-- `ld.so-1.7.0\0`, the old-format magic. -/
def cacheMagic : List Nat :=
  [108, 100, 46, 115, 111, 45, 49, 46, 55, 46, 48, 0]

/-- `glibc-ld.so.cache1.1`, the new-format magic. -/
def cacheMagicNew : List Nat :=
  [103, 108, 105, 98, 99, 45, 108, 100, 46, 115, 111, 46, 99, 97, 99,
   104, 101, 49, 46, 49]

/-- `getNewLdCache`: skip the old-format header and entries (entry size
4+4+4) plus the 8-byte alignment padding, returning the new-format region
and the old entry count. -/
def getNewLdCache (b : List Nat) : GoResult (List Nat × Nat) :=
  if !cacheMagic.isPrefixOf b then
    .err "dynlib: ld.so.cache has invalid old_magic"
  else
    let off := cacheMagic.length
    let b := b.drop off
    if b.length < 4 then .err "dynlib: ld.so.cache truncated (nlibs)"
    else
      let nlibs := leU32 b
      let off := off + 4
      let b := b.drop 4
      let nSkip := 12 * nlibs
      if b.length < nSkip then .err "dynlib: ld.so.cache truncated (libs[])"
      else
        let off := off + nSkip
        let b := b.drop nSkip
        let padLen := ((off + 8 - 1) / 8) * 8 - off
        if b.length < padLen then .err "dynlib: ld.so.cache truncated (pad)"
        else .ok (b.drop padLen, nlibs)

/-- The `getString` closure of `LoadCache`.  Faithful to the Go code,
including its partial paths: an index equal to `len(stringTable)` passes the
`idx > len` guard, and when the suffix holds no NUL `bytes.IndexByte`
returns `-1`, making the slice `stringTable[idx : idx-1]` panic. -/
def getString (stringTable : List Nat) (idx : Nat) : GoResult String :=
  if idx > stringTable.length then
    .err "dynlib: string table index out of bounds"
  else
    match (stringTable.drop idx).findIdx? (fun c => c == 0) with
    | none => .panic
    | some 0 => .ok ""
    | some l => .ok (bytesToString ((stringTable.drop idx).take l))

/-- amd64 `flagCheckFn`: `flags&wantFlags == flags` with
`wantFlags = flagX8664Lib64 | flagElfLibc6 = 0x300 ||| 3`. -/
def flagCheckAmd64 (flags : Nat) : Bool :=
  flags &&& 0x303 == flags

/-- amd64 `capCheckFn`: unused on this architecture. -/
def capCheckAmd64 (_hwcap : Nat) : Bool :=
  true

/-- Append an entry to the store bucket of `key` (Go map lookup plus
`append` plus store). -/
def storeAdd (store : List (String × List CacheEntry)) (key : String)
    (e : CacheEntry) : List (String × List CacheEntry) :=
  match store with
  | [] => [(key, [e])]
  | (k, es) :: rest =>
      if k == key then (k, es ++ [e]) :: rest
      else (k, es) :: storeAdd rest key e

/-- The entry loop of `LoadCache`: decode `libs[i]` for `i < nlibs` from
`rawLibs` (24-byte entries), resolve the key/value string-table offsets, and
index the entries accepted by the architecture predicate. -/
def loadCacheEntries (stringTable : List Nat) :
    Nat → List Nat → List (String × List CacheEntry) →
    GoResult (List (String × List CacheEntry))
  | 0, _, store => .ok store
  | n + 1, rawLibs, store =>
      let rawE := rawLibs.take 24
      let flags := leU32 rawE
      let kIdx := leU32 (rawE.drop 4)
      let vIdx := leU32 (rawE.drop 8)
      let osVersion := leU32 (rawE.drop 12)
      let hwcap := leU64 (rawE.drop 16)
      match getString stringTable kIdx with
      | .err e => .err ("dynlib: failed to query key: " ++ e)
      | .panic => .panic
      | .ok key =>
        match getString stringTable vIdx with
        | .err e => .err ("dynlib: failed to query value: " ++ e)
        | .panic => .panic
        | .ok value =>
          let e : CacheEntry :=
            { key := key, value := value, flags := flags,
              osVersion := osVersion, hwcap := hwcap }
          let store :=
            if flagCheckAmd64 e.flags && capCheckAmd64 e.hwcap then
              storeAdd store e.key e
            else store
          loadCacheEntries stringTable n (rawLibs.drop 24) store

/-- `LoadCache`, on the amd64 path (the `IsSupported` gate admits only
amd64; the input bytes stand for the contents of `/etc/ld.so.cache`).  The
new-format entry size is 4+4+4+4+8 = 24.  Note the Go code slices
`b[:nlibs*entrySz]` without first comparing `nlibs*entrySz` against
`len(b)`: when the entry array is truncated that slice expression panics,
which the embedding makes explicit. -/
def LoadCache (bytes : List Nat) : GoResult Cache :=
  match getNewLdCache bytes with
  | .err e => .err e
  | .panic => .panic
  | .ok (b, _) =>
    let stringTable := b
    if !cacheMagicNew.isPrefixOf b then
      .err "dynlib: ld.so.cache has invalid new_magic"
    else
      let b := b.drop cacheMagicNew.length
      if b.length < 2 * 4 + 5 * 4 then
        .err "dynlib: ld.so.cache truncated (new header)"
      else
        let nlibs := leU32 b
        let b := b.drop 4
        let lenStrings := leU32 b
        let b := b.drop (4 + 20)
        if b.length < nlibs * 24 then .panic
        else
          let rawLibs := b.take (nlibs * 24)
          let b := b.drop (nlibs * 24)
          if b.length != lenStrings then
            .err "dynlib: lenStrings appears invalid"
          else
            match loadCacheEntries stringTable nlibs rawLibs [] with
            | .err e => .err e
            | .panic => .panic
            | .ok store => .ok { store := store }

/-- A cache image whose old-format part is well formed (zero old entries)
and whose new-format header claims one entry, with no entry bytes present:
12 (old magic) + 4 (nlibs=0) + 20 (new magic) + 4 (newnlibs=1) +
4 (lenStrings=0) + 20 (unused) bytes. -/
def truncatedEntryArrayCache : List Nat :=
  cacheMagic ++ [0, 0, 0, 0] ++ cacheMagicNew ++ [1, 0, 0, 0] ++
    [0, 0, 0, 0] ++ List.replicate 20 0

example : truncatedEntryArrayCache.length = 64 := by decide

/-- A one-byte string table with no terminating NUL. -/
example : getString [65] 0 = GoResult.panic := by decide

example : LoadCache truncatedEntryArrayCache = GoResult.panic := by decide

end Dynlib

/-- Fold a Go loop body over a list, short-circuiting on `err`/`panic`. -/
def goFold {σ α : Type} (f : σ → α → GoResult σ) : σ → List α → GoResult σ
  | st, [] => .ok st
  | st, a :: rest =>
      match f st a with
      | .ok st2 => goFold f st2 rest
      | .err e => .err e
      | .panic => .panic

/-- Fold a Go loop body over a list, short-circuiting on a returned error. -/
def exFold {σ α : Type} (f : σ → α → Except String σ) :
    σ → List α → Except String σ
  | st, [] => .ok st
  | st, a :: rest =>
      match f st a with
      | .ok st2 => exFold f st2 rest
      | .error e => .error e

/-- Go map assignment `m[k] = v` on an association list: replace the first
binding of `k`, or append a fresh one. -/
def assocUpsert {κ α : Type} [BEq κ] : List (κ × α) → κ → α → List (κ × α)
  | [], k, v => [(k, v)]
  | (k0, v0) :: rest, k, v =>
      if k0 == k then (k0, v) :: rest
      else (k0, v0) :: assocUpsert rest k v

/-- Go map lookup `m[k]` on an association list. -/
def assocLookup {κ α : Type} [BEq κ] : List (κ × α) → κ → Option α
  | [], _ => none
  | (k0, v0) :: rest, k => if k0 == k then some v0 else assocLookup rest k

/-- Go `unicode.IsSpace` on the ASCII range (all that rule files hold). -/
def goIsSpace (c : Char) : Bool :=
  c == ' ' || c == '\t' || c == '\n' || c == '\r' ||
    c == Char.ofNat 11 || c == Char.ofNat 12

/-- Drop leading whitespace. -/
def goTrimLeft : List Char → List Char
  | [] => []
  | c :: cs => if goIsSpace c then goTrimLeft cs else c :: cs

/-- `bytes.TrimSpace` on the ASCII range: drop leading whitespace, then
drop trailing whitespace via a reversal. -/
def goTrim (s : List Char) : List Char :=
  (goTrimLeft (goTrimLeft s).reverse).reverse

/-- `bytes.Split(s, []byte{a})`. -/
def split1 (a : Char) : List Char → List (List Char)
  | [] => [[]]
  | c :: rest =>
      if c == a then [] :: split1 a rest
      else
        match split1 a rest with
        | [] => [[c]]
        | x :: xs => (c :: x) :: xs

/-- `bytes.Split(s, []byte{a, b})`: left-to-right scan for the
non-overlapping two-byte separator. -/
def split2 (a b : Char) : List Char → List (List Char)
  | [] => [[]]
  | [c] => [[c]]
  | c :: d :: rest =>
      if c == a && d == b then
        [] :: split2 a b rest
      else
        match split2 a b (d :: rest) with
        | [] => [[c]]
        | x :: xs => (c :: x) :: xs

/-- `bytes.SplitN(s, []byte{a}, 2)`: the part before the first `a` and the
rest.  The default for a separator-free input is unreachable at the call
site (the caller checked `bytes.IndexByte != -1`). -/
def splitFirst (a : Char) : List Char → List Char × List Char
  | [] => ([], [])
  | c :: rest =>
      if c == a then ([], rest)
      else
        let p := splitFirst a rest
        (c :: p.1, p.2)

namespace Sandbox

/-- Value of a hexadecimal digit character. -/
def digitVal (c : Char) : Option Nat :=
  if '0' ≤ c && c ≤ '9' then some (c.toNat - 48)
  else if 'a' ≤ c && c ≤ 'f' then some (c.toNat - 97 + 10)
  else if 'A' ≤ c && c ≤ 'F' then some (c.toNat - 65 + 10)
  else none

/-- Accumulate digits in the given base, rejecting invalid characters. -/
def parseDigitsAux (base : Nat) : Nat → List Char → Option Nat
  | acc, [] => some acc
  | acc, c :: rest =>
      match digitVal c with
      | some d => if d < base then parseDigitsAux base (base * acc + d) rest else none
      | none => none

/-- A non-empty digit string in the given base. -/
def parseDigits (base : Nat) : List Char → Option Nat
  | [] => none
  | cs => parseDigitsAux base 0 cs

/-- Modelled from the contract of `strconv.ParseUint(s, 0, 64)`: no sign,
base chosen by prefix (`0x`/`0X` hex, `0b`/`0B` binary, `0o`/`0O` or a bare
leading `0` octal, decimal otherwise), value below `2^64`.  Go's optional
digit-separator underscores are not modelled; no rule file and no claim uses
them. -/
def parseGoUint (s : List Char) : Option Nat :=
  let r : Option Nat :=
    match s with
    | [] => none
    | ['0'] => some 0
    | '0' :: c :: rest =>
        if c == 'x' || c == 'X' then parseDigits 16 rest
        else if c == 'o' || c == 'O' then parseDigits 8 rest
        else if c == 'b' || c == 'B' then parseDigits 2 rest
        else parseDigits 8 (c :: rest)
    | cs => parseDigits 10 cs
  match r with
  | some v => if v < 2 ^ 64 then some v else none
  | none => none

/-- A seccomp action: `ActAllow` or `ActErrno.SetReturnCode code`. -/
inductive ScmpAction where
  | allow : ScmpAction
  | errno : Nat → ScmpAction
deriving DecidableEq, Repr

/-- `ScmpCondition` restricted to what `installTBLOzWhitelist` builds:
`MakeCondition(arg, CompareEqual, val)`. -/
structure ScmpCond where
  arg : Nat
  val : Nat
deriving DecidableEq, Repr

/-- One rule of the built filter: the syscall id, the action, and the
condition list handed to `AddRule` (empty) or `AddRuleConditionalExact`. -/
structure SeccompRule where
  syscall : Nat
  action : ScmpAction
  conds : List ScmpCond
deriving DecidableEq, Repr

/-- The filter under construction: default action plus added rules in
order. -/
structure Filter where
  defaultAct : ScmpAction
  rules : List SeccompRule
deriving DecidableEq, Repr

def Filter.addRule (f : Filter) (syscall : Nat) (action : ScmpAction)
    (conds : List ScmpCond) : Filter :=
  { f with rules := f.rules ++ [⟨syscall, action, conds⟩] }

/-- Modelled from the spec: "the underlying filter representation treats
each condition as an independent AND-clause" — a rule added through
libseccomp's `AddRuleConditionalExact` matches an argument vector exactly
when every one of its conditions holds. -/
def ruleMatches (r : SeccompRule) (args : Nat → Nat) : Bool :=
  r.conds.all (fun c => args c.arg == c.val)

/-- Modelled from the spec: the verdict of the exported filter for a
syscall and argument vector — the action of the first added rule for that
syscall whose conditions all hold, or the default action. -/
def Filter.verdict (f : Filter) (syscall : Nat) (args : Nat → Nat) : ScmpAction :=
  match f.rules.find? (fun r => r.syscall == syscall && ruleMatches r args) with
  | some r => r.action
  | none => f.defaultAct

/-- The `constantTable` literal of `installTBLOzWhitelist`, with the values
of the referenced `syscall` package constants. -/
def initialConstantTable : List (List Char × Nat) :=
  [("PR_SET_NAME".data, 15), ("PR_GET_NAME".data, 16),
   ("PR_GET_TIMERSLACK".data, 30), ("PR_SET_SECCOMP".data, 22),
   ("AF_UNIX".data, 1), ("AF_INET".data, 2),
   ("AF_INET6".data, 10), ("AF_NETLINK".data, 16)]

/-- Parser state: the mutable constant table and the filter built so far. -/
structure WLState where
  table : List (List Char × Nat)
  filter : Filter
deriving DecidableEq, Repr

/-- `canUseConditionals := runtime.GOARCH == "amd64"`. -/
def canUseConditionals (goarch : String) : Bool :=
  goarch == "amd64"

/-- The `arg` switch: `arg0` … `arg5` to an index, anything else is a hard
error. -/
def parseArgIndex (arg : List Char) : Option Nat :=
  if arg == "arg0".data then some 0
  else if arg == "arg1".data then some 1
  else if arg == "arg2".data then some 2
  else if arg == "arg3".data then some 3
  else if arg == "arg4".data then some 4
  else if arg == "arg5".data then some 5
  else none

/-- `argConds[i] = append(argConds[i], v)`: Go panics with an index out of
range when `i` is not below the slice length. -/
def sliceAppendAt (xs : List (List Nat)) (i : Nat) (v : Nat) :
    GoResult (List (List Nat)) :=
  if h : i < xs.length then .ok (xs.set i (xs.get ⟨i, h⟩ ++ [v]))
  else .panic

/-- The body of the `for _, v := range conds` loop: split one
`argN==VALUE` clause on `==`, decode the argument index, resolve the value
through the constant table with a `ParseUint` fallback, and record it under
the argument index. -/
def condStep (table : List (List Char × Nat)) (ln : Nat) (l : List Char)
    (argConds : List (List Nat)) (v : List Char) : GoResult (List (List Nat)) :=
  let v := goTrim v
  match split2 '=' '=' v with
  | [a, b] =>
      match parseArgIndex (goTrim a) with
      | none => .err ("seccomp: invalid argument: " ++ toString ln ++ ":"
          ++ String.mk l)
      | some argN =>
          let rawVal := goTrim b
          let val? :=
            match assocLookup table rawVal with
            | some val => some val
            | none => parseGoUint rawVal
          match val? with
          | none => .err ("seccomp: invalid value: " ++ toString ln ++ ":"
              ++ String.mk l ++ ": parse error")
          | some val => sliceAppendAt argConds argN val
  | _ => .err ("seccomp: invalid condition: " ++ toString ln ++ ":" ++ String.mk l)

/-- The `for arg, vals := range argConds` loop: one `MakeCondition(arg,
CompareEqual, val)` per recorded value, in argument-index order (arguments
with no recorded value contribute nothing; `MakeCondition` cannot fail here
since every index is below 6). -/
def flattenConds : Nat → List (List Nat) → List ScmpCond
  | _, [] => []
  | arg, vals :: rest => vals.map (fun v => ⟨arg, v⟩) ++ flattenConds (arg + 1) rest

/-- The rule branch of the parse loop (`bytes.IndexByte(l, ':') != -1`):
resolve the syscall name (a soft skip when unknown), then either add an
unconditional allow (no conditional support, or condition `1`) or parse the
`||`-separated condition clauses and add a conditional allow. -/
def processRule (cu : Bool) (resolve : List Char → Option Nat) (st : WLState)
    (ln : Nat) (l : List Char) : GoResult WLState :=
  let sp := splitFirst ':' l
  let scallName := goTrim sp.1
  match resolve scallName with
  | none => .ok st
  | some scall =>
      if !cu then .ok { st with filter := st.filter.addRule scall .allow [] }
      else
        let rawCond := goTrim sp.2
        if rawCond == ['1'] then
          .ok { st with filter := st.filter.addRule scall .allow [] }
        else
          let conds := split2 '|' '|' rawCond
          if conds.length < 1 then
            .err ("seccomp: invalid rule: " ++ toString ln ++ ":" ++ String.mk l)
          else
            match goFold (condStep st.table ln l) (List.replicate 5 []) conds with
            | .err e => .err e
            | .panic => .panic
            | .ok argConds =>
                let scConds := flattenConds 0 argConds
                .ok { st with filter := st.filter.addRule scall .allow scConds }

/-- The declaration branch (`bytes.IndexByte(l, '=') != -1`): split on `=`
(a full split, so exactly one `=` is required), parse the value with
`strconv.ParseUint(·, 0, 64)` and store it in the constant table. -/
def processDecl (st : WLState) (ln : Nat) (l : List Char) : GoResult WLState :=
  match split1 '=' l with
  | [k0, v0] =>
      match parseGoUint (goTrim v0) with
      | none => .err ("seccomp: invalid conditional: " ++ toString ln ++ ":"
          ++ String.mk l ++ ": parse error")
      | some v => .ok { st with table := assocUpsert st.table (goTrim k0) v }
  | _ => .err ("seccomp: invalid constant: " ++ toString ln ++ ":" ++ String.mk l)

/-- One iteration of `for ln, l := range bytes.Split(b, "\n")`: trim, skip
blank and `#` lines, dispatch on the presence of `:` (rule) or `=`
(declaration), otherwise a syntax error. -/
def processLine (cu : Bool) (resolve : List Char → Option Nat) (st : WLState)
    (ln : Nat) (rawLine : List Char) : GoResult WLState :=
  let l := goTrim rawLine
  if l.length == 0 then .ok st
  else if ['#'].isPrefixOf l then .ok st
  else if l.contains ':' then processRule cu resolve st ln l
  else if l.contains '=' then processDecl st ln l
  else .err ("seccomp: syntax error in profile: " ++ toString ln ++ ":"
      ++ String.mk l)

/-- The whole parse loop over the numbered lines. -/
def runLines (cu : Bool) (resolve : List Char → Option Nat) :
    WLState → List (Nat × List Char) → GoResult WLState
  | st, [] => .ok st
  | st, (ln, l) :: rest =>
      match processLine cu resolve st ln l with
      | .ok st2 => runLines cu resolve st2 rest
      | .err e => .err e
      | .panic => .panic

/-- The initial state: the `constantTable` literal and an empty filter whose
default action is `ActErrno.SetReturnCode(1)`. -/
def wlInit : WLState :=
  { table := initialConstantTable, filter := { defaultAct := .errno 1, rules := [] } }

/-- `installTBLOzWhitelist`, parameterised over the architecture string
(`runtime.GOARCH`), libseccomp's syscall-name resolver
(`GetSyscallFromName`, `none` when the name is unknown) and the text of the
`torbrowser-launcher-whitelist.seccomp` asset.  Returns the filter that
`ExportBPF` serialises. -/
def installTBLOzWhitelist (goarch : String) (resolve : List Char → Option Nat)
    (text : String) : GoResult Filter :=
  let cu := canUseConditionals goarch
  match runLines cu resolve wlInit ((split1 '\n' text.data).enum) with
  | .ok st => .ok st.filter
  | .err e => .err e
  | .panic => .panic

/-- The static `syscallBlacklist` of `installBasicBlacklist`, with the two
extra entries appended on 386. -/
def syscallBlacklist (goarch : String) : List String :=
  ["syslog", "uselib", "personality", "acct", "modify_ldt", "quotactl",
   "move_pages", "mbind", "get_mempolicy", "set_mempolicy", "migrate_pages",
   "unshare", "mount", "pivot_root",
   "perf_event_open", "ptrace",
   "umount2", "kexec_load", "open_by_handle_at", "name_to_handle_at",
   "create_module", "init_module", "finit_module", "delete_module",
   "iopl", "ioperm", "ioprio_set", "swapon", "swapoff",
   "process_vm_readv", "process_vm_writev", "sysfs", "_sysctl",
   "adjtimex", "clock_adjtime", "lookup_dcookie",
   "fanotify_init", "kcmp", "add_key", "request_key", "keyctl",
   "io_setup", "io_destroy", "io_getevents", "io_submit", "io_cancel",
   "remap_file_pages", "vmsplice", "chroot", "tuxcall", "reboot",
   "nfsservctl", "get_kernel_syms"] ++
    (if goarch == "386" then ["vm86", "vm86old"] else [])

/-- The `for _, n := range syscallBlacklist` loop: an unknown name is a hard
error, a known one adds a deny rule with `ActErrno.SetReturnCode(1)`. -/
def blacklistLoop (resolve : List Char → Option Nat) :
    Filter → List String → GoResult Filter
  | f, [] => .ok f
  | f, n :: rest =>
      match resolve n.data with
      | none => .err ("seccomp: unknown syscall: " ++ n)
      | some s => blacklistLoop resolve (f.addRule s (.errno 1) []) rest

/-- `installBasicBlacklist`: allow-by-default filter plus the deny list. -/
def installBasicBlacklist (goarch : String) (resolve : List Char → Option Nat) :
    GoResult Filter :=
  blacklistLoop resolve { defaultAct := .allow, rules := [] }
    (syscallBlacklist goarch)

/-- Observable events on the caller-supplied `*os.File`. -/
inductive FdEvent where
  | write : FdEvent
  | close : FdEvent
deriving DecidableEq, Repr

/-- `installTBLOzWhitelist` together with its event trace on `fd`: the body
writes the program (`ExportBPF(fd)`) only when compilation succeeded, and
the `defer fd.Close()` registered on entry runs on every return path and
during a panic unwind alike, so the trace always ends with the close. -/
def installTBLOzWhitelistFd (goarch : String) (resolve : List Char → Option Nat)
    (text : String) : GoResult Filter × List FdEvent :=
  let r := installTBLOzWhitelist goarch resolve text
  (r, (match r with
       | .ok _ => [FdEvent.write]
       | .err _ => []
       | .panic => []) ++ [FdEvent.close])

/-- `installBasicBlacklist` together with its event trace on `fd`; the
structure is the same as for the whitelist. -/
def installBasicBlacklistFd (goarch : String) (resolve : List Char → Option Nat) :
    GoResult Filter × List FdEvent :=
  let r := installBasicBlacklist goarch resolve
  (r, (match r with
       | .ok _ => [FdEvent.write]
       | .err _ => []
       | .panic => []) ++ [FdEvent.close])

end Sandbox

namespace Dynlib

/-- The external capabilities `Cache.ResolveLibraries` consumes: the
ELF import extractor `GetLibraries`, `utils.FileExists`, and
`filepath.EvalSymlinks`. -/
structure ResolveEnv where
  getLibraries : String → Except String (List String)
  fileExists : String → Bool
  evalSymlinks : String → Except String String

/-- `filepath.Join(d, lib)` for the shapes arising here (the embedding does
not re-clean the joined path; no verified property inspects its spelling). -/
def filepathJoin (d lib : String) : String :=
  d ++ "/" ++ lib

/-- `filepath.SplitList` on Linux: `""` gives no entries, otherwise split on
`:`. -/
def splitList (p : String) : List String :=
  if p == "" then [] else (split1 ':' p.data).map String.mk

/-- `Cache.GetLibraryPath`: the first candidate entry for the name, or `""`
when the cache holds none.  (`LoadCache` never stores an empty bucket, so
Go's `ents[0]` is in bounds whenever the key is present.) -/
def Cache.GetLibraryPath (c : Cache) (name : String) : String :=
  match assocLookup c.store name with
  | none => ""
  | some [] => ""
  | some (e :: _) => e.value

/-- The `for _, d := range searchPaths` loop: the first directory whose
joined path exists. -/
def lookupSearchPaths (env : ResolveEnv) (searchPaths : List String)
    (lib : String) : Option String :=
  match searchPaths with
  | [] => none
  | d :: rest =>
      if env.fileExists (filepathJoin d lib) then some (filepathJoin d lib)
      else lookupSearchPaths env rest lib

/-- Resolution of one imported name (lines 117–141 of cache.go): the search
path first, the cache second, a hard error naming the library when both
fail.  The Bool is `inLdLibraryPath`. -/
def resolveOneLib (env : ResolveEnv) (searchPaths : List String) (c : Cache)
    (lib : String) : Except String (String × Bool) :=
  match lookupSearchPaths env searchPaths lib with
  | some p => .ok (p, true)
  | none =>
      let libPath := c.GetLibraryPath lib
      if libPath == "" then
        .error ("dynlib: Failed to find library: " ++ lib)
      else .ok (libPath, false)

/-- The state threaded through the breadth-first walk: the working
name-to-path map, the two visited sets, and the next level's work set.
Go's `map[string]bool` sets are kept as insertion-ordered lists; only
membership matters. -/
structure RState where
  libraries : List (String × String)
  checkedFile : List String
  checkedLib : List String
  newToCheck : List String
deriving DecidableEq, Repr

/-- Append to a Go set (`map[string]bool`) without duplicating. -/
def addUnique (xs : List String) (x : String) : List String :=
  if xs.contains x then xs else xs ++ [x]

/-- The `for _, lib := range impLibs` body: skip already-checked names,
resolve the rest, register the pair unless the search path satisfied it,
mark the name checked, and enqueue the resolved file when unvisited. -/
def processLib (env : ResolveEnv) (searchPaths : List String) (c : Cache)
    (st : RState) (lib : String) : Except String RState :=
  if st.checkedLib.contains lib then .ok st
  else
    match resolveOneLib env searchPaths c lib with
    | .error e => .error e
    | .ok (libPath, inLdLibraryPath) =>
        .ok { libraries :=
                if !inLdLibraryPath then assocUpsert st.libraries lib libPath
                else st.libraries,
              checkedFile := st.checkedFile,
              checkedLib := st.checkedLib ++ [lib],
              newToCheck :=
                if st.checkedFile.contains libPath then st.newToCheck
                else addUnique st.newToCheck libPath }

/-- The `for _, fn := range toCheck` body: extract the file's imports, mark
the file visited, splice the extra libraries into the first file processed,
and fold `processLib` over the import list. -/
def processFile (env : ResolveEnv) (searchPaths : List String) (c : Cache)
    (acc : RState × Option (List String)) (fn : String) :
    Except String (RState × Option (List String)) :=
  match env.getLibraries fn with
  | .error e => .error e
  | .ok impLibs =>
      match exFold (processLib env searchPaths c)
          { acc.1 with checkedFile := acc.1.checkedFile ++ [fn] }
          (match acc.2 with
           | some ex => impLibs ++ ex
           | none => impLibs) with
      | .error e => .error e
      | .ok st2 => .ok (st2, none)

/-- The unbounded `for {}` level loop, made total with fuel: each iteration
starts a fresh `newToCheck`, stops when the work list is empty, and
otherwise processes the level and recurses on the collected next level.
`none` means the fuel ran out (in Go the loop terminates on every finite
dependency graph because the visited sets grow monotonically). -/
def levelLoop (env : ResolveEnv) (searchPaths : List String) (c : Cache) :
    Nat → RState → Option (List String) → List String →
    Option (Except String (List (String × String)))
  | 0, _, _, _ => none
  | fuel + 1, st, extras, toCheck =>
      if toCheck.isEmpty then some (.ok st.libraries)
      else
        match exFold (processFile env searchPaths c)
            ({ st with newToCheck := [] }, extras) toCheck with
        | .error e => some (.error e)
        | .ok (st2, extras2) =>
            levelLoop env searchPaths c fuel st2 extras2 st2.newToCheck

/-- The de-dup post-process (lines 161–176 of cache.go): resolve every
collected path through symlinks and group the names by canonical path.
Go iterates the `libraries` map in unspecified order; the embedding uses
insertion order, on which no verified property depends. -/
def dedupFold (env : ResolveEnv) :
    List (String × List String) → List (String × String) →
    Except String (List (String × List String))
  | ret, [] => .ok ret
  | ret, (lib, fn) :: rest =>
      match env.evalSymlinks fn with
      | .error e => .error e
      | .ok f =>
          let vec := (assocLookup ret f).getD []
          dedupFold env (assocUpsert ret f (vec ++ [lib])) rest

/-- `Cache.ResolveLibraries`, with the external capabilities and the loop
fuel explicit.  `none` is fuel exhaustion; `some` wraps Go's
`(map, error)` pair — every error return in the source carries a `nil`
map, which the `Except` shape makes structural. -/
def Cache.ResolveLibraries (c : Cache) (env : ResolveEnv)
    (binaries extraLibs : List String) (ldLibraryPath : String) (fuel : Nat) :
    Option (Except String (List (String × List String))) :=
  let searchPaths := splitList ldLibraryPath
  match levelLoop env searchPaths c fuel
      ⟨[], [], [], []⟩ (some extraLibs) binaries with
  | none => none
  | some (.error e) => some (.error e)
  | some (.ok libraries) => some (dedupFold env [] libraries)

/-- Whether an imported name can be resolved at all: a search-path match or
a non-empty cache answer. -/
def resolvable (env : ResolveEnv) (searchPaths : List String) (c : Cache)
    (lib : String) : Bool :=
  (lookupSearchPaths env searchPaths lib).isSome ||
    !(Cache.GetLibraryPath c lib == "")

/-- All alias names over all buckets of a resolution result. -/
def allAliases (m : List (String × List String)) : List String :=
  (m.map Prod.snd).flatten

end Dynlib

/-! Concrete fixtures used to instantiate the theorems below. -/

namespace Fixtures

/-- A resolver knowing only `socket` (id 41 on amd64). -/
def socketResolver : List Char → Option Nat :=
  fun n => if n == "socket".data then some 41 else none

/-- An argument vector with `arg0 = v` and all other arguments zero. -/
def argsArg0 (v : Nat) : Nat → Nat :=
  fun i => if i == 0 then v else 0

/-- An environment where `/bin/A` imports `libx.so` and nothing else exists:
the unresolved-dependency scenario of the spec. -/
def envMissing : Dynlib.ResolveEnv :=
  { getLibraries := fun f => if f == "/bin/A" then .ok ["libx.so"]
      else .error ("dynlib: not a binary: " ++ f)
    fileExists := fun _ => false
    evalSymlinks := fun p => .ok p }

/-- An environment where `/bin/A` imports `libx.so` (present in the `/opt`
search-path directory) and `liby.so` (cache only); neither library imports
anything further. -/
def envSearchPath : Dynlib.ResolveEnv :=
  { getLibraries := fun f => if f == "/bin/A" then .ok ["libx.so", "liby.so"]
      else if f == "/opt/libx.so" then .ok []
      else if f == "/lib/liby.so" then .ok []
      else .error ("dynlib: not a binary: " ++ f)
    fileExists := fun p => p == "/opt/libx.so"
    evalSymlinks := fun p => .ok p }

/-- A cache holding only `liby.so`. -/
def cacheY : Dynlib.Cache :=
  ⟨[("liby.so", [⟨"liby.so", "/lib/liby.so", 3, 0, 0⟩])]⟩

/-- An environment where `/bin/A` imports two aliases whose cache paths are
both symlinks to the same canonical file. -/
def envAliases : Dynlib.ResolveEnv :=
  { getLibraries := fun f => if f == "/bin/A" then .ok ["liba.so", "libb.so"]
      else if f == "/lib/liba.so" || f == "/lib/libb.so" then .ok []
      else .error ("dynlib: not a binary: " ++ f)
    fileExists := fun _ => false
    evalSymlinks := fun _ => .ok "/lib/libreal.so" }

/-- A cache holding `liba.so` and `libb.so`. -/
def cacheAliases : Dynlib.Cache :=
  ⟨[("liba.so", [⟨"liba.so", "/lib/liba.so", 3, 0, 0⟩]),
    ("libb.so", [⟨"libb.so", "/lib/libb.so", 3, 0, 0⟩])]⟩

end Fixtures

/-! Claim theorems. -/

/-- C1: the claim that cache loading handles every corruption with a decode
error and never panics is false on the code.  A cache whose new-format
header claims one entry with no entry bytes panics at `b[:nlibs*entrySz]`
(no bounds check); a name/path offset whose suffix lacks a terminating NUL,
and an offset equal to the string-table length, both panic inside
`getString` (`bytes.IndexByte` returns -1 and the slice
`stringTable[idx:idx-1]` is invalid; the guard uses `idx > len`, not
`idx >= len`). -/
theorem c1_cache_loader_panics :
    Dynlib.LoadCache Dynlib.truncatedEntryArrayCache = GoResult.panic ∧
    Dynlib.getString [65] 0 = GoResult.panic ∧
    Dynlib.getString [0] 1 = GoResult.panic := by
  refine ⟨by decide, by decide, by decide⟩

/-- C2: the claim that `argN==V1 || argN==V2` compiles to a filter allowing
exactly V1 and V2 is false on the code.  The compiler groups the two values
under the argument index but then lowers each to its own
`MakeCondition(arg, CompareEqual, val)` inside a single
`AddRuleConditionalExact` rule, whose conditions the filter representation
AND-s together; with distinct values the rule matches nothing, so arg0 = 1
and arg0 = 2 both fall through to the deny-by-default action. -/
theorem c2_or_branches_lowered_as_and :
    Sandbox.installTBLOzWhitelist "amd64" Fixtures.socketResolver
        "socket: arg0==1 || arg0==2" =
      GoResult.ok ⟨.errno 1, [⟨41, .allow, [⟨0, 1⟩, ⟨0, 2⟩]⟩]⟩ ∧
    Sandbox.Filter.verdict ⟨.errno 1, [⟨41, .allow, [⟨0, 1⟩, ⟨0, 2⟩]⟩]⟩ 41
        (Fixtures.argsArg0 1) = .errno 1 ∧
    Sandbox.Filter.verdict ⟨.errno 1, [⟨41, .allow, [⟨0, 1⟩, ⟨0, 2⟩]⟩]⟩ 41
        (Fixtures.argsArg0 2) = .errno 1 := by
  refine ⟨by decide, by decide, by decide⟩

/-- C3: the claim that a condition on any argument index 0–5 is recorded
without an out-of-range access is false on the code: the `arg` switch
accepts `arg5` but `argConds` is allocated with `make([][]uint64, 5)`, so
`argConds[5]` panics with an index out of range, while the same rule on
`arg4` compiles fine. -/
theorem c3_arg5_index_out_of_range :
    Sandbox.installTBLOzWhitelist "amd64" Fixtures.socketResolver
        "socket: arg5==1" = GoResult.panic ∧
    Sandbox.installTBLOzWhitelist "amd64" Fixtures.socketResolver
        "socket: arg4==1" =
      GoResult.ok ⟨.errno 1, [⟨41, .allow, [⟨4, 1⟩]⟩]⟩ := by
  refine ⟨by decide, by decide⟩

/-- C4: the claim that `|`-combined value expressions are resolved to the
bitwise-OR of the constituent constants is false on the code: a declaration
value goes straight to `strconv.ParseUint` (constant references are not
even looked up there), and a condition value is looked up as one verbatim
token before the `ParseUint` fallback, so both `BAR=FOO | 2` and
`arg0 == FOO|2` abort compilation with a parse error. -/
theorem c4_counterexample_or_values_rejected :
    Sandbox.installTBLOzWhitelist "amd64" Fixtures.socketResolver
        "FOO=1\nBAR=FOO | 2" =
      GoResult.err "seccomp: invalid conditional: 1:BAR=FOO | 2: parse error" ∧
    Sandbox.installTBLOzWhitelist "amd64" Fixtures.socketResolver
        "FOO=1\nsocket: arg0 == FOO|2" =
      GoResult.err "seccomp: invalid value: 1:socket: arg0 == FOO|2: parse error" := by
  refine ⟨by decide, by decide⟩

/-- C4 (amended): value expressions are single verbatim tokens — a
declaration value must be a numeric literal, and a condition value must be
a declared constant name or a numeric literal; any other token (in
particular a `|`-combination of constant names) is a hard parse error
(`invalid conditional` / `invalid value`), not a bitwise-OR resolution. -/
theorem c4_value_expressions_single_token :
    (∀ (st : Sandbox.WLState) (ln : Nat) (l k0 v0 : List Char),
      split1 '=' l = [k0, v0] →
      Sandbox.parseGoUint (goTrim v0) = none →
      Sandbox.processDecl st ln l =
        GoResult.err ("seccomp: invalid conditional: " ++ toString ln ++ ":"
          ++ String.mk l ++ ": parse error")) ∧
    (∀ (table : List (List Char × Nat)) (ln : Nat) (l : List Char)
      (argConds : List (List Nat)) (v a b : List Char) (n : Nat),
      split2 '=' '=' (goTrim v) = [a, b] →
      Sandbox.parseArgIndex (goTrim a) = some n →
      assocLookup table (goTrim b) = none →
      Sandbox.parseGoUint (goTrim b) = none →
      Sandbox.condStep table ln l argConds v =
        GoResult.err ("seccomp: invalid value: " ++ toString ln ++ ":"
          ++ String.mk l ++ ": parse error")) := by
  constructor
  · intro st ln l k0 v0 hsplit hparse
    simp only [Sandbox.processDecl, hsplit, hparse]
  · intro table ln l argConds v a b n hsplit harg hlook hparse
    simp only [Sandbox.condStep, hsplit, harg, hlook, hparse]

/-- Witness for the amended C4 at the inputs of the counterexample. -/
theorem c4_value_expressions_single_token_witness :
    Sandbox.processDecl Sandbox.wlInit 1 "BAR=FOO | 2".data =
      GoResult.err ("seccomp: invalid conditional: " ++ toString (1 : Nat) ++ ":"
        ++ String.mk "BAR=FOO | 2".data ++ ": parse error") ∧
    Sandbox.condStep Sandbox.initialConstantTable 1 "socket: arg0 == FOO|2".data
        (List.replicate 5 []) "arg0 == FOO|2".data =
      GoResult.err ("seccomp: invalid value: " ++ toString (1 : Nat) ++ ":"
        ++ String.mk "socket: arg0 == FOO|2".data ++ ": parse error") :=
  ⟨c4_value_expressions_single_token.1 Sandbox.wlInit 1 "BAR=FOO | 2".data
      "BAR".data "FOO | 2".data (by decide) (by decide),
   c4_value_expressions_single_token.2 Sandbox.initialConstantTable 1
      "socket: arg0 == FOO|2".data (List.replicate 5 []) "arg0 == FOO|2".data
      "arg0 ".data " FOO|2".data 0 (by decide) (by decide) (by decide) (by decide)⟩

/-- Helper: the blacklist loop aborts with an error whenever any listed
name is unknown to the resolver. -/
theorem blacklistLoop_unknown_err (resolve : List Char → Option Nat)
    (n : String) :
    ∀ (l : List String) (f : Sandbox.Filter), n ∈ l → resolve n.data = none →
      ∃ e, Sandbox.blacklistLoop resolve f l = GoResult.err e := by
  intro l
  induction l with
  | nil => exact fun f h _ => absurd h (List.not_mem_nil n)
  | cons hd tl ih =>
      intro f hmem hres
      by_cases hhd : resolve hd.data = none
      · exact ⟨"seccomp: unknown syscall: " ++ hd,
          by simp [Sandbox.blacklistLoop, hhd]⟩
      · obtain ⟨s, hs⟩ := Option.ne_none_iff_exists'.mp hhd
        rcases List.mem_cons.mp hmem with heq | htl
        · subst heq; exact absurd hres hhd
        · obtain ⟨e, he⟩ :=
            ih (f.addRule s (Sandbox.ScmpAction.errno 1) []) htl hres
          exact ⟨e, by simp [Sandbox.blacklistLoop, hs, he]⟩

/-- C5: an unresolvable syscall name is a soft skip in whitelist
compilation — the rule line contributes nothing and the remaining lines are
processed as if it were absent — while in blacklist compilation any
unresolvable listed name aborts with an error, and nothing is written to
the output handle (the fd sees only the deferred close). -/
theorem c5_unknown_name_soft_whitelist_hard_blacklist :
    (∀ (cu : Bool) (resolve : List Char → Option Nat) (st : Sandbox.WLState)
      (ln : Nat) (l : List Char) (rest : List (Nat × List Char)),
      ((goTrim l).length == 0) = false →
      (['#'].isPrefixOf (goTrim l)) = false →
      ((goTrim l).contains ':') = true →
      resolve (goTrim (splitFirst ':' (goTrim l)).1) = none →
      Sandbox.runLines cu resolve st ((ln, l) :: rest) =
        Sandbox.runLines cu resolve st rest) ∧
    (∀ (goarch : String) (resolve : List Char → Option Nat) (n : String),
      n ∈ Sandbox.syscallBlacklist goarch → resolve n.data = none →
      (∃ e, Sandbox.installBasicBlacklist goarch resolve = GoResult.err e) ∧
      (Sandbox.installBasicBlacklistFd goarch resolve).2 =
        [Sandbox.FdEvent.close]) := by
  constructor
  · intro cu resolve st ln l rest h0 h1 h2 hres
    have h2m : ':' ∈ goTrim l := by simpa using h2
    have hpl : Sandbox.processLine cu resolve st ln l = GoResult.ok st := by
      simp [Sandbox.processLine, Sandbox.processRule, h0, h1, h2m, hres]
    simp [Sandbox.runLines, hpl]
  · intro goarch resolve n hmem hres
    obtain ⟨e, he⟩ := blacklistLoop_unknown_err resolve n
      (Sandbox.syscallBlacklist goarch)
      { defaultAct := .allow, rules := [] } hmem hres
    refine ⟨⟨e, he⟩, ?_⟩
    simp [Sandbox.installBasicBlacklistFd, Sandbox.installBasicBlacklist, he]

/-- Witness for C5: a single unknown rule line compiles to the same state
as no line at all, and a blacklist whose resolver knows nothing fails with
an error and writes nothing. -/
theorem c5_unknown_name_witness :
    Sandbox.runLines true (fun _ => none) Sandbox.wlInit [(0, "bogus: 1".data)] =
      Sandbox.runLines true (fun _ => none) Sandbox.wlInit [] ∧
    (∃ e, Sandbox.installBasicBlacklist "amd64" (fun _ => none) =
      GoResult.err e) ∧
    (Sandbox.installBasicBlacklistFd "amd64" (fun _ => none)).2 =
      [Sandbox.FdEvent.close] :=
  ⟨c5_unknown_name_soft_whitelist_hard_blacklist.1 true (fun _ => none)
      Sandbox.wlInit 0 "bogus: 1".data [] (by decide) (by decide) (by decide) rfl,
   (c5_unknown_name_soft_whitelist_hard_blacklist.2 "amd64" (fun _ => none)
      "syslog" (by decide) rfl).1,
   (c5_unknown_name_soft_whitelist_hard_blacklist.2 "amd64" (fun _ => none)
      "syslog" (by decide) rfl).2⟩

/-- C6: on an architecture other than amd64 (`canUseConditionals` false), a
rule line whose syscall name resolves compiles to an unconditional allow —
the text after the colon is never parsed (the result does not depend on
it), the rule carries no conditions, so it matches every argument vector,
and no deny rule is emitted. -/
theorem c6_no_conditional_support_unconditional_allow
    (goarch : String) (resolve : List Char → Option Nat) (st : Sandbox.WLState)
    (ln : Nat) (rawLine : List Char) (id : Nat) :
    Sandbox.canUseConditionals goarch = false →
    ((goTrim rawLine).length == 0) = false →
    (['#'].isPrefixOf (goTrim rawLine)) = false →
    ((goTrim rawLine).contains ':') = true →
    resolve (goTrim (splitFirst ':' (goTrim rawLine)).1) = some id →
    Sandbox.processLine (Sandbox.canUseConditionals goarch) resolve st ln rawLine =
      GoResult.ok { st with filter := st.filter.addRule id .allow [] } ∧
    ∀ args, Sandbox.ruleMatches ⟨id, .allow, []⟩ args = true := by
  intro hcu h0 h1 h2 hres
  have h2m : ':' ∈ goTrim rawLine := by simpa using h2
  constructor
  · rw [hcu]
    simp [Sandbox.processLine, Sandbox.processRule, h0, h1, h2m, hres]
  · intro args; rfl

/-- Witness for C6 on a rule whose condition text is garbage that the
amd64 path would reject. -/
theorem c6_no_conditional_support_witness :
    Sandbox.processLine (Sandbox.canUseConditionals "arm") Fixtures.socketResolver
        Sandbox.wlInit 3 "socket: arg7==!!garbage||".data =
      GoResult.ok { Sandbox.wlInit with
        filter := Sandbox.wlInit.filter.addRule 41 .allow [] } ∧
    Sandbox.ruleMatches ⟨41, .allow, []⟩ (fun _ => 0) = true :=
  ⟨(c6_no_conditional_support_unconditional_allow "arm" Fixtures.socketResolver
      Sandbox.wlInit 3 "socket: arg7==!!garbage||".data 41 (by decide) (by decide)
      (by decide) (by decide) (by decide)).1,
   (c6_no_conditional_support_unconditional_allow "arm" Fixtures.socketResolver
      Sandbox.wlInit 3 "socket: arg7==!!garbage||".data 41 (by decide) (by decide)
      (by decide) (by decide) (by decide)).2 (fun _ => 0)⟩

/-- C10: both filter installers close the caller-supplied handle on every
path — the trace on the handle always ends with the close event, and the
close happens exactly once (Go's `defer fd.Close()` registered on entry
runs on normal return, error return, and panic unwind alike). -/
theorem c10_fd_closed_on_all_paths :
    ∀ (goarchW goarchB : String) (resolveW resolveB : List Char → Option Nat)
      (text : String),
      ((Sandbox.installTBLOzWhitelistFd goarchW resolveW text).2.getLast? =
          some Sandbox.FdEvent.close ∧
        (Sandbox.installTBLOzWhitelistFd goarchW resolveW text).2.count
          Sandbox.FdEvent.close = 1) ∧
      ((Sandbox.installBasicBlacklistFd goarchB resolveB).2.getLast? =
          some Sandbox.FdEvent.close ∧
        (Sandbox.installBasicBlacklistFd goarchB resolveB).2.count
          Sandbox.FdEvent.close = 1) := by
  intro goarchW goarchB resolveW resolveB text
  constructor
  · cases h : Sandbox.installTBLOzWhitelist goarchW resolveW text <;>
      simp [Sandbox.installTBLOzWhitelistFd, h]
  · cases h : Sandbox.installBasicBlacklist goarchB resolveB <;>
      simp [Sandbox.installBasicBlacklistFd, h]

/-- Helper: per-library resolution fails with the naming error when both
the search path and the cache miss. -/
theorem resolveOneLib_not_found (env : Dynlib.ResolveEnv) (sps : List String)
    (c : Dynlib.Cache) (lib : String)
    (h1 : Dynlib.lookupSearchPaths env sps lib = none)
    (h2 : Dynlib.Cache.GetLibraryPath c lib = "") :
    Dynlib.resolveOneLib env sps c lib =
      .error ("dynlib: Failed to find library: " ++ lib) := by
  simp [Dynlib.resolveOneLib, h1, h2]

/-- Helper: a resolvable library resolves to some pair. -/
theorem resolvable_resolveOneLib_ok (env : Dynlib.ResolveEnv)
    (sps : List String) (c : Dynlib.Cache) (lib : String)
    (h : Dynlib.resolvable env sps c lib = true) :
    ∃ p b, Dynlib.resolveOneLib env sps c lib = .ok (p, b) := by
  cases hls : Dynlib.lookupSearchPaths env sps lib with
  | some p => exact ⟨p, true, by simp [Dynlib.resolveOneLib, hls]⟩
  | none =>
      have hgl : (Dynlib.Cache.GetLibraryPath c lib == "") = false := by
        simpa [Dynlib.resolvable, hls] using h
      exact ⟨Dynlib.Cache.GetLibraryPath c lib, false,
        by simp [Dynlib.resolveOneLib, hls, hgl]⟩

/-- Helper: an unresolvable library is not `resolvable`. -/
theorem resolvable_false_of_not_found (env : Dynlib.ResolveEnv)
    (sps : List String) (c : Dynlib.Cache) (lib : String)
    (h1 : Dynlib.lookupSearchPaths env sps lib = none)
    (h2 : Dynlib.Cache.GetLibraryPath c lib = "") :
    Dynlib.resolvable env sps c lib = false := by
  simp [Dynlib.resolvable, h1, h2]

/-- Helper: a successful `processLib` step only ever extends `checkedLib`
by the processed name, leaves `checkedFile` unchanged, and keeps or extends
`newToCheck` and `libraries`. -/
theorem processLib_ok_shape (env : Dynlib.ResolveEnv) (sps : List String)
    (c : Dynlib.Cache) (st : Dynlib.RState) (lib : String)
    (st2 : Dynlib.RState)
    (h : Dynlib.processLib env sps c st lib = .ok st2) :
    st2.checkedFile = st.checkedFile ∧
    (st2.checkedLib = st.checkedLib ∨
      st2.checkedLib = st.checkedLib ++ [lib]) := by
  by_cases hcm : lib ∈ st.checkedLib
  · have h2 := h
    simp [Dynlib.processLib, hcm] at h2
    subst h2; exact ⟨rfl, Or.inl rfl⟩
  · cases hr : Dynlib.resolveOneLib env sps c lib with
    | error e => simp [Dynlib.processLib, hcm, hr] at h
    | ok pb =>
        obtain ⟨p, b⟩ := pb
        have h2 := h
        simp only [Dynlib.processLib, hr] at h2
        rw [if_neg (by simpa using hcm)] at h2
        injection h2 with h3
        subst h3
        exact ⟨rfl, Or.inr rfl⟩

/-- Helper: folding the import loop over a list whose earlier names all
resolve and that then reaches an unresolvable, not-yet-checked name stops
with the error naming that name. -/
theorem exFold_processLib_err (env : Dynlib.ResolveEnv) (sps : List String)
    (c : Dynlib.Cache) (lib : String) (post : List String)
    (hls : Dynlib.lookupSearchPaths env sps lib = none)
    (hgl : Dynlib.Cache.GetLibraryPath c lib = "") :
    ∀ (pre : List String) (st : Dynlib.RState),
      (∀ x ∈ pre, Dynlib.resolvable env sps c x = true) →
      lib ∉ st.checkedLib →
      exFold (Dynlib.processLib env sps c) st (pre ++ lib :: post) =
        .error ("dynlib: Failed to find library: " ++ lib) := by
  intro pre
  induction pre with
  | nil =>
      intro st _ hc
      have hpl : Dynlib.processLib env sps c st lib =
          .error ("dynlib: Failed to find library: " ++ lib) := by
        simp [Dynlib.processLib, hc,
          resolveOneLib_not_found env sps c lib hls hgl]
      simp [exFold, hpl]
  | cons hd tl ih =>
      intro st hpre hc
      have hhd : Dynlib.resolvable env sps c hd = true :=
        hpre hd (List.mem_cons_self hd tl)
      have hne : hd ≠ lib := by
        intro he
        rw [he] at hhd
        rw [resolvable_false_of_not_found env sps c lib hls hgl] at hhd
        exact Bool.false_ne_true hhd
      by_cases hchd : hd ∈ st.checkedLib
      · have hpl : Dynlib.processLib env sps c st hd = .ok st := by
          simp [Dynlib.processLib, hchd]
        have : exFold (Dynlib.processLib env sps c) st
            ((hd :: tl) ++ lib :: post) =
            exFold (Dynlib.processLib env sps c) st (tl ++ lib :: post) := by
          simp [exFold, hpl]
        rw [this]
        exact ih st (fun x hx => hpre x (List.mem_cons_of_mem hd hx)) hc
      · obtain ⟨p, b, hok⟩ := resolvable_resolveOneLib_ok env sps c hd hhd
        have hex : ∃ st2, Dynlib.processLib env sps c st hd = .ok st2 := by
          simp only [Dynlib.processLib, hok]
          rw [if_neg (by simpa using hchd)]
          exact ⟨_, rfl⟩
        obtain ⟨st2, hpl⟩ := hex
        obtain ⟨-, hshape⟩ := processLib_ok_shape env sps c st hd st2 hpl
        have hc2 : lib ∉ st2.checkedLib := by
          rcases hshape with h1 | h1 <;> rw [h1]
          · exact hc
          · intro hmem
            rcases List.mem_append.mp hmem with hm | hm
            · exact hc hm
            · exact hne (List.mem_singleton.mp hm).symm
        have heq : exFold (Dynlib.processLib env sps c) st
            ((hd :: tl) ++ lib :: post) =
            exFold (Dynlib.processLib env sps c) st2 (tl ++ lib :: post) := by
          simp [exFold, hpl]
        rw [heq]
        exact ih st2 (fun x hx => hpre x (List.mem_cons_of_mem hd hx)) hc2

/-- C7: an imported library with no search-path match and no cache entry
makes resolution fail with an error naming exactly that library.  The first
conjunct is the per-import resolution step in full generality; the second
runs `ResolveLibraries` end to end: for any binary whose import list (with
the extra libraries appended) reaches such a library after only resolvable
names, the whole call returns the naming error — and, the result being an
`Except`, the error carries no mapping, mirroring Go's `return nil, err`. -/
theorem c7_unresolved_dependency_fails
    {env : Dynlib.ResolveEnv} {c : Dynlib.Cache} {bin lib ldPath : String}
    {rest extras libs pre post : List String} {fuel : Nat} :
    (∀ (env2 : Dynlib.ResolveEnv) (sps : List String) (c2 : Dynlib.Cache)
      (name : String),
      Dynlib.lookupSearchPaths env2 sps name = none →
      Dynlib.Cache.GetLibraryPath c2 name = "" →
      Dynlib.resolveOneLib env2 sps c2 name =
        .error ("dynlib: Failed to find library: " ++ name)) ∧
    (env.getLibraries bin = .ok libs →
      libs ++ extras = pre ++ lib :: post →
      (∀ x ∈ pre, Dynlib.resolvable env (Dynlib.splitList ldPath) c x = true) →
      Dynlib.lookupSearchPaths env (Dynlib.splitList ldPath) lib = none →
      Dynlib.Cache.GetLibraryPath c lib = "" →
      Dynlib.Cache.ResolveLibraries c env (bin :: rest) extras ldPath
          (fuel + 1) =
        some (.error ("dynlib: Failed to find library: " ++ lib))) := by
  constructor
  · exact resolveOneLib_not_found
  · intro henv hsplit hpre hls hgl
    have hfold : exFold (Dynlib.processLib env (Dynlib.splitList ldPath) c)
        ⟨[], [bin], [], []⟩ (libs ++ extras) =
        .error ("dynlib: Failed to find library: " ++ lib) := by
      rw [hsplit]
      exact exFold_processLib_err env (Dynlib.splitList ldPath) c lib post
        hls hgl pre ⟨[], [bin], [], []⟩ hpre (List.not_mem_nil lib)
    have hpf : Dynlib.processFile env (Dynlib.splitList ldPath) c
        (⟨[], [], [], []⟩, some extras) bin =
        .error ("dynlib: Failed to find library: " ++ lib) := by
      simp only [Dynlib.processFile, henv, List.nil_append]
      rw [hfold]
    have hll : Dynlib.levelLoop env (Dynlib.splitList ldPath) c (fuel + 1)
        ⟨[], [], [], []⟩ (some extras) (bin :: rest) =
        some (.error ("dynlib: Failed to find library: " ++ lib)) := by
      simp [Dynlib.levelLoop, exFold, hpf]
    simp [Dynlib.Cache.ResolveLibraries, hll]

/-- Witness for C7 on the spec's own example: `/bin/A` imports `libx.so`,
the search path is empty, and the cache is empty. -/
theorem c7_unresolved_dependency_witness :
    Dynlib.resolveOneLib Fixtures.envMissing [] ⟨[]⟩ "libx.so" =
      .error ("dynlib: Failed to find library: " ++ "libx.so") ∧
    Dynlib.Cache.ResolveLibraries ⟨[]⟩ Fixtures.envMissing ["/bin/A"] [] "" 1 =
      some (.error ("dynlib: Failed to find library: " ++ "libx.so")) :=
  ⟨(@c7_unresolved_dependency_fails Fixtures.envMissing ⟨[]⟩ "/bin/A"
      "libx.so" "" [] [] ["libx.so"] [] [] 0).1
      Fixtures.envMissing [] ⟨[]⟩ "libx.so" rfl rfl,
   (@c7_unresolved_dependency_fails Fixtures.envMissing ⟨[]⟩ "/bin/A"
      "libx.so" "" [] [] ["libx.so"] [] [] 0).2
      rfl rfl (by simp) rfl rfl⟩

/-- Helper: a resolution that reports `inLdLibraryPath = false` found no
search-path match. -/
theorem resolveOneLib_ok_false (env : Dynlib.ResolveEnv) (sps : List String)
    (c : Dynlib.Cache) (lib q : String)
    (h : Dynlib.resolveOneLib env sps c lib = .ok (q, false)) :
    Dynlib.lookupSearchPaths env sps lib = none := by
  cases hls : Dynlib.lookupSearchPaths env sps lib with
  | none => rfl
  | some p =>
      rw [Dynlib.resolveOneLib, hls] at h
      simp at h

/-- Helper: a resolution that reports `inLdLibraryPath = true` returns the
search-path match, for every cache. -/
theorem resolveOneLib_ok_true (env : Dynlib.ResolveEnv) (sps : List String)
    (c : Dynlib.Cache) (lib p : String)
    (h : Dynlib.lookupSearchPaths env sps lib = some p) :
    Dynlib.resolveOneLib env sps c lib = .ok (p, true) := by
  rw [Dynlib.resolveOneLib, h]

/-- Helper: how a successful `processLib` step may change `newToCheck` and
`libraries`: the work set is kept or extended by one path, and the map is
kept or extended under the processed name — the latter only when the
search path had no match for it. -/
theorem processLib_ok_more (env : Dynlib.ResolveEnv) (sps : List String)
    (c : Dynlib.Cache) (st : Dynlib.RState) (lib : String)
    (st2 : Dynlib.RState)
    (h : Dynlib.processLib env sps c st lib = .ok st2) :
    (st2.newToCheck = st.newToCheck ∨
      ∃ q, st2.newToCheck = Dynlib.addUnique st.newToCheck q) ∧
    (st2.libraries = st.libraries ∨
      (Dynlib.lookupSearchPaths env sps lib = none ∧
        ∃ q, st2.libraries = assocUpsert st.libraries lib q)) := by
  by_cases hcm : lib ∈ st.checkedLib
  · have h2 := h
    simp [Dynlib.processLib, hcm] at h2
    subst h2
    exact ⟨Or.inl rfl, Or.inl rfl⟩
  · cases hr : Dynlib.resolveOneLib env sps c lib with
    | error e => simp [Dynlib.processLib, hcm, hr] at h
    | ok pb =>
        obtain ⟨q, b⟩ := pb
        have h2 := h
        simp only [Dynlib.processLib, hr] at h2
        rw [if_neg (by simpa using hcm)] at h2
        injection h2 with h3
        subst h3
        constructor
        · by_cases hcf : st.checkedFile.contains q = true
          · refine Or.inl ?_
            show (if st.checkedFile.contains q = true then st.newToCheck
              else Dynlib.addUnique st.newToCheck q) = st.newToCheck
            rw [if_pos hcf]
          · refine Or.inr ⟨q, ?_⟩
            show (if st.checkedFile.contains q = true then st.newToCheck
              else Dynlib.addUnique st.newToCheck q) =
              Dynlib.addUnique st.newToCheck q
            rw [if_neg hcf]
        · cases b with
          | true => exact Or.inl (by simp)
          | false =>
              refine Or.inr ⟨resolveOneLib_ok_false env sps c lib q hr, q, ?_⟩
              simp

/-- Helper: membership after a map upsert. -/
theorem assocUpsert_mem {κ α : Type} [BEq κ] [LawfulBEq κ]
    (m : List (κ × α)) (k : κ)
    (v : α) : ∀ e ∈ assocUpsert m k v, e ∈ m ∨ e = (k, v) := by
  induction m with
  | nil => intro e he; simp [assocUpsert] at he; exact Or.inr he
  | cons hd tl ih =>
      intro e he
      rw [assocUpsert] at he
      by_cases hk : hd.1 == k
      · rw [if_pos hk] at he
        rcases List.mem_cons.mp he with h1 | h1
        · exact Or.inr (by rw [h1, eq_of_beq hk])
        · exact Or.inl (List.mem_cons_of_mem hd h1)
      · rw [if_neg hk] at he
        rcases List.mem_cons.mp he with h1 | h1
        · subst h1; exact Or.inl (List.mem_cons_self hd tl)
        · rcases ih e h1 with h2 | h2
          · exact Or.inl (List.mem_cons_of_mem hd h2)
          · exact Or.inr h2

/-- Helper: a successful map lookup names a binding of the list. -/
theorem assocLookup_mem {κ α : Type} [BEq κ] [LawfulBEq κ]
    (m : List (κ × α)) (k : κ) (v : α) (h : assocLookup m k = some v) :
    (k, v) ∈ m := by
  induction m with
  | nil => simp [assocLookup] at h
  | cons hd tl ih =>
      rw [assocLookup] at h
      by_cases hk : hd.1 == k
      · rw [if_pos hk] at h
        injection h with h2
        have hkeq : hd.1 = k := eq_of_beq hk
        have : hd = (k, v) := by
          rw [← hkeq, ← h2]
        rw [← this]
        exact List.mem_cons_self hd tl
      · rw [if_neg hk] at h
        exact List.mem_cons_of_mem hd (ih h)

/-- Helper: keys after a map upsert. -/
theorem assocUpsert_keys_mem {κ α : Type} [BEq κ] [LawfulBEq κ]
    (m : List (κ × α)) (k : κ) (v : α) (x : κ)
    (h : x ∈ (assocUpsert m k v).map Prod.fst) :
    x ∈ m.map Prod.fst ∨ x = k := by
  rcases List.mem_map.mp h with ⟨e, he, hx⟩
  rcases assocUpsert_mem m k v e he with h1 | h1
  · exact Or.inl (by rw [← hx]; exact List.mem_map_of_mem Prod.fst h1)
  · exact Or.inr (by rw [← hx, h1])

/-- Helper: a map upsert keeps the keys without duplicates. -/
theorem assocUpsert_keys_nodup {κ α : Type} [BEq κ] [LawfulBEq κ]
    (k : κ) (v : α) :
    ∀ (m : List (κ × α)), (m.map Prod.fst).Nodup →
      ((assocUpsert m k v).map Prod.fst).Nodup := by
  intro m
  induction m with
  | nil => intro _; simp [assocUpsert]
  | cons hd tl ih =>
      intro hnd
      rw [List.map_cons, List.nodup_cons] at hnd
      rw [assocUpsert]
      by_cases hk : hd.1 == k
      · rw [if_pos hk]
        rw [List.map_cons, List.nodup_cons]
        exact ⟨hnd.1, hnd.2⟩
      · rw [if_neg hk]
        rw [List.map_cons, List.nodup_cons]
        refine ⟨?_, ih hnd.2⟩
        intro hmem
        rcases assocUpsert_keys_mem tl k v hd.1 hmem with h1 | h1
        · exact hnd.1 h1
        · exact hk (beq_iff_eq.mpr h1)

/-- Helper: adding to a Go set keeps existing members. -/
theorem addUnique_mem_mono (xs : List String) (y x : String)
    (h : x ∈ xs) : x ∈ Dynlib.addUnique xs y := by
  rw [Dynlib.addUnique]
  by_cases hc : xs.contains y = true
  · rw [if_pos hc]; exact h
  · rw [if_neg hc]; exact List.mem_append_left _ h

/-- Helper: the added element is a member of the Go set. -/
theorem addUnique_mem_self (xs : List String) (y : String) :
    y ∈ Dynlib.addUnique xs y := by
  rw [Dynlib.addUnique]
  by_cases hc : xs.contains y = true
  · rw [if_pos hc]; simpa using hc
  · rw [if_neg hc]; exact List.mem_append_right _ (List.mem_singleton.mpr rfl)

/-- Helper: an invariant preserved by each successful step is preserved by
the whole fold. -/
theorem exFold_inv {σ α : Type} {f : σ → α → Except String σ} {P : σ → Prop}
    (hf : ∀ st a st2, P st → f st a = .ok st2 → P st2) :
    ∀ (l : List α) (st st2 : σ), P st → exFold f st l = .ok st2 → P st2 := by
  intro l
  induction l with
  | nil =>
      intro st st2 hP h
      rw [exFold] at h
      injection h with h2
      rwa [← h2]
  | cons hd tl ih =>
      intro st st2 hP h
      rw [exFold] at h
      cases hstep : f st hd with
      | error e => rw [hstep] at h; exact absurd h (by simp)
      | ok stm => rw [hstep] at h; exact ih stm st2 (hf st hd stm hP hstep) h

/-- Helper: a state invariant that ignores `newToCheck` and is preserved by
`processFile` survives the whole level loop, and the returned map is the
`libraries` field of a state satisfying it. -/
theorem levelLoop_ok_inv {env : Dynlib.ResolveEnv} {sps : List String}
    {c : Dynlib.Cache} (P : Dynlib.RState → Prop)
    (hreset : ∀ st, P st → P { st with newToCheck := [] })
    (hstep : ∀ (acc : Dynlib.RState × Option (List String)) (fn : String)
      (acc2 : Dynlib.RState × Option (List String)),
      P acc.1 → Dynlib.processFile env sps c acc fn = .ok acc2 → P acc2.1) :
    ∀ (fuel : Nat) (st : Dynlib.RState) (extras : Option (List String))
      (toCheck : List String) (libs : List (String × String)),
      P st →
      Dynlib.levelLoop env sps c fuel st extras toCheck = some (.ok libs) →
      ∃ stf, P stf ∧ libs = stf.libraries := by
  intro fuel
  induction fuel with
  | zero =>
      intro st extras toCheck libs hP h
      exact absurd h (by simp [Dynlib.levelLoop])
  | succ n ih =>
      intro st extras toCheck libs hP h
      rw [Dynlib.levelLoop] at h
      by_cases hempty : toCheck.isEmpty = true
      · rw [if_pos hempty] at h
        injection h with h2
        injection h2 with h3
        exact ⟨st, hP, h3.symm⟩
      · rw [if_neg hempty] at h
        cases hfold : exFold (Dynlib.processFile env sps c)
            ({ st with newToCheck := [] }, extras) toCheck with
        | error e => rw [hfold] at h; exact absurd h (by simp)
        | ok acc2 =>
            obtain ⟨st2, ex2⟩ := acc2
            rw [hfold] at h
            have hP2 : P st2 :=
              exFold_inv hstep toCheck ({ st with newToCheck := [] }, extras)
                (st2, ex2) (hreset st hP) hfold
            exact ih st2 ex2 st2.newToCheck libs hP2 h

/-- Helper: unpacking a successful end-to-end resolution into its level
loop outcome and the de-dup pass. -/
theorem resolveLibraries_ok_inv {c : Dynlib.Cache} {env : Dynlib.ResolveEnv}
    {binaries extras : List String} {ldPath : String} {fuel : Nat}
    {m : List (String × List String)}
    (h : Dynlib.Cache.ResolveLibraries c env binaries extras ldPath fuel =
      some (.ok m)) :
    ∃ libs, Dynlib.levelLoop env (Dynlib.splitList ldPath) c fuel
        ⟨[], [], [], []⟩ (some extras) binaries = some (.ok libs) ∧
      Dynlib.dedupFold env [] libs = .ok m := by
  rw [Dynlib.Cache.ResolveLibraries] at h
  cases hll : Dynlib.levelLoop env (Dynlib.splitList ldPath) c fuel
      ⟨[], [], [], []⟩ (some extras) binaries with
  | none => rw [hll] at h; exact absurd h (by simp)
  | some r =>
      cases r with
      | error e => rw [hll] at h; exact absurd h (by simp)
      | ok libs =>
          rw [hll] at h
          injection h with h2
          exact ⟨libs, rfl, h2⟩

/-- Helper: a state invariant untouched by the `checkedFile` update and
preserved by `processLib` is preserved by `processFile`. -/
theorem processFile_inv {env : Dynlib.ResolveEnv} {sps : List String}
    {c : Dynlib.Cache} (P : Dynlib.RState → Prop)
    (hfile : ∀ st fn, P st → P { st with checkedFile := st.checkedFile ++ [fn] })
    (hlib : ∀ st l st2, P st → Dynlib.processLib env sps c st l = .ok st2 →
      P st2) :
    ∀ (acc : Dynlib.RState × Option (List String)) (fn : String)
      (acc2 : Dynlib.RState × Option (List String)),
      P acc.1 → Dynlib.processFile env sps c acc fn = .ok acc2 → P acc2.1 := by
  intro acc fn acc2 hP h
  obtain ⟨st, ex⟩ := acc
  rw [Dynlib.processFile] at h
  cases hgl : env.getLibraries fn with
  | error e => rw [hgl] at h; exact absurd h (by simp)
  | ok impLibs =>
      rw [hgl] at h
      have hP1 : P { st with checkedFile := st.checkedFile ++ [fn] } :=
        hfile st fn hP
      cases ex with
      | none =>
          dsimp only at h
          cases hfold : exFold (Dynlib.processLib env sps c)
              { st with checkedFile := st.checkedFile ++ [fn] } impLibs with
          | error e => rw [hfold] at h; exact absurd h (by simp)
          | ok stm =>
              rw [hfold] at h
              injection h with h2
              rw [← h2]
              exact exFold_inv hlib impLibs _ stm hP1 hfold
      | some exl =>
          dsimp only at h
          cases hfold : exFold (Dynlib.processLib env sps c)
              { st with checkedFile := st.checkedFile ++ [fn] }
              (impLibs ++ exl) with
          | error e => rw [hfold] at h; exact absurd h (by simp)
          | ok stm =>
              rw [hfold] at h
              injection h with h2
              rw [← h2]
              exact exFold_inv hlib (impLibs ++ exl) _ stm hP1 hfold

/-- Helper: an alias of some bucket is an alias of the result. -/
theorem mem_allAliases {m : List (String × List String)} {q a : String}
    {as : List String} (h : (q, as) ∈ m) (ha : a ∈ as) :
    a ∈ Dynlib.allAliases m := by
  rw [Dynlib.allAliases]
  exact List.mem_flatten.mpr ⟨as, List.mem_map.mpr ⟨(q, as), h, rfl⟩, ha⟩

/-- Helper: appending one alias to the bucket of its canonical path adds
exactly one occurrence to the multiset of all aliases. -/
theorem allAliases_addAlias (f lib : String) :
    ∀ (ret : List (String × List String)) (a : String),
      (Dynlib.allAliases (assocUpsert ret f
          (((assocLookup ret f).getD []) ++ [lib]))).count a =
        (Dynlib.allAliases ret).count a + (if lib = a then 1 else 0) := by
  intro ret
  induction ret with
  | nil =>
      intro a
      by_cases heq : lib = a
      · simp [assocUpsert, assocLookup, Dynlib.allAliases, heq]
      · simp [assocUpsert, assocLookup, Dynlib.allAliases,
          List.count_singleton', Ne.symm heq, heq]
  | cons hd tl ih =>
      intro a
      obtain ⟨k, vs⟩ := hd
      by_cases hk : (k == f) = true
      · rw [show assocLookup ((k, vs) :: tl) f = some vs by
            simp [assocLookup, hk]]
        rw [show assocUpsert ((k, vs) :: tl) f
              (((some vs).getD []) ++ [lib]) =
            (k, vs ++ [lib]) :: tl by simp [assocUpsert, hk]]
        by_cases heq : lib = a
        · simp only [Dynlib.allAliases, List.map_cons, List.flatten_cons,
            List.count_append, heq]
          simp [List.count_cons]
          omega
        · simp [Dynlib.allAliases, List.count_append, List.count_cons,
            Ne.symm heq, heq]
      · rw [show assocLookup ((k, vs) :: tl) f = assocLookup tl f by
            simp [assocLookup, hk]]
        rw [show assocUpsert ((k, vs) :: tl) f
              (((assocLookup tl f).getD []) ++ [lib]) =
            (k, vs) :: assocUpsert tl f (((assocLookup tl f).getD []) ++ [lib])
            by simp [assocUpsert, hk]]
        have := ih a
        simp only [Dynlib.allAliases, List.map_cons, List.flatten_cons,
          List.count_append] at this ⊢
        omega

/-- Helper: the de-dup pass turns the name-to-path map into buckets whose
alias multiset is the input's key multiset (on top of the accumulator). -/
theorem dedupFold_count (env : Dynlib.ResolveEnv) :
    ∀ (l : List (String × String)) (ret : List (String × List String))
      (m : List (String × List String)),
      Dynlib.dedupFold env ret l = .ok m →
      ∀ a, (Dynlib.allAliases m).count a =
        (Dynlib.allAliases ret).count a + (l.map Prod.fst).count a := by
  intro l
  induction l with
  | nil =>
      intro ret m h a
      rw [Dynlib.dedupFold] at h
      injection h with h2
      subst h2
      simp
  | cons hd tl ih =>
      intro ret m h a
      obtain ⟨lib, fn⟩ := hd
      rw [Dynlib.dedupFold] at h
      cases hsym : env.evalSymlinks fn with
      | error e => rw [hsym] at h; exact absurd h (by simp)
      | ok f =>
          rw [hsym] at h
          have hrec := ih
            (assocUpsert ret f (((assocLookup ret f).getD []) ++ [lib])) m h a
          rw [hrec, allAliases_addAlias f lib ret a]
          by_cases heq : lib = a
          · subst heq
            simp [List.count_cons]
            omega
          · simp [List.count_cons, Ne.symm heq, heq]
          
/-- Helper: every alias of every bucket produced by the de-dup pass either
was already in the accumulator or entered from a pair `(alias, path)` of
the input whose path symlink-resolves to the bucket's canonical key. -/
theorem dedupFold_origin (env : Dynlib.ResolveEnv) :
    ∀ (l : List (String × String)) (ret : List (String × List String))
      (m : List (String × List String)),
      Dynlib.dedupFold env ret l = .ok m →
      ∀ q as, (q, as) ∈ m → ∀ a, a ∈ as →
        (∃ as0, (q, as0) ∈ ret ∧ a ∈ as0) ∨
        (∃ rp, (a, rp) ∈ l ∧ env.evalSymlinks rp = .ok q) := by
  intro l
  induction l with
  | nil =>
      intro ret m h q as hmem a ha
      rw [Dynlib.dedupFold] at h
      injection h with h2
      subst h2
      exact Or.inl ⟨as, hmem, ha⟩
  | cons hd tl ih =>
      intro ret m h q as hmem a ha
      obtain ⟨lib, fn⟩ := hd
      rw [Dynlib.dedupFold] at h
      cases hsym : env.evalSymlinks fn with
      | error e => rw [hsym] at h; exact absurd h (by simp)
      | ok f =>
          rw [hsym] at h
          rcases ih (assocUpsert ret f (((assocLookup ret f).getD []) ++ [lib]))
              m h q as hmem a ha with h1 | ⟨rp, hrp, hsymrp⟩
          · obtain ⟨as0, hmem0, ha0⟩ := h1
            rcases assocUpsert_mem ret f
                (((assocLookup ret f).getD []) ++ [lib]) (q, as0) hmem0
              with h2 | h2
            · exact Or.inl ⟨as0, h2, ha0⟩
            · have hq : q = f := congrArg Prod.fst h2
              have has : as0 = ((assocLookup ret f).getD []) ++ [lib] :=
                congrArg Prod.snd h2
              subst hq
              rw [has] at ha0
              rcases List.mem_append.mp ha0 with h3 | h3
              · cases hlook : assocLookup ret q with
                | none => rw [hlook] at h3; simp at h3
                | some vs =>
                    rw [hlook] at h3
                    exact Or.inl ⟨vs, assocLookup_mem ret q vs hlook, h3⟩
              · have ha4 : a = lib := List.mem_singleton.mp h3
                subst ha4
                exact Or.inr ⟨fn, List.mem_cons_self (a, fn) tl, hsym⟩
          · exact Or.inr ⟨rp, List.mem_cons_of_mem (lib, fn) hrp, hsymrp⟩

/-- Helper: with duplicate-free keys, membership determines the lookup. -/
theorem assocLookup_of_mem_nodup {κ α : Type} [BEq κ] [LawfulBEq κ] :
    ∀ (m : List (κ × α)) (k : κ) (v : α),
      (m.map Prod.fst).Nodup → (k, v) ∈ m → assocLookup m k = some v := by
  intro m
  induction m with
  | nil => intro k v _ h; exact absurd h (List.not_mem_nil (k, v))
  | cons hd tl ih =>
      intro k v hnd hmem
      rw [List.map_cons, List.nodup_cons] at hnd
      rcases List.mem_cons.mp hmem with h1 | h1
      · rw [assocLookup]
        have hbeq : (hd.1 == k) = true := beq_iff_eq.mpr (by rw [← h1])
        rw [if_pos hbeq, ← h1]
      · rw [assocLookup]
        have hne : ¬((hd.1 == k) = true) := by
          intro hb
          apply hnd.1
          rw [eq_of_beq hb]
          exact List.mem_map_of_mem Prod.fst h1
        rw [if_neg hne]
        exact ih k v hnd.2 h1

/-- Helper: a successful `processLib` step never drops work-set members. -/
theorem processLib_newToCheck_mono (env : Dynlib.ResolveEnv)
    (sps : List String) (c : Dynlib.Cache) (st : Dynlib.RState) (l : String)
    (st2 : Dynlib.RState) (x : String)
    (h : Dynlib.processLib env sps c st l = .ok st2)
    (hx : x ∈ st.newToCheck) : x ∈ st2.newToCheck := by
  rcases (processLib_ok_more env sps c st l st2 h).1 with h1 | ⟨q, h1⟩
  · rwa [h1]
  · rw [h1]; exact addUnique_mem_mono st.newToCheck q x hx

/-- C8: an imported name with a search-path match is satisfied by the
search path.  First conjunct: its per-import resolution returns the
search-path hit for every cache whatsoever — in particular the cache is
never consulted and no unresolved-dependency error can arise from it.
Second: the name appears under no bucket of any successfully returned
mapping (it is omitted from the output).  Third: processing an import list
that reaches the name still enqueues the found file into the next level's
work set, so its own imports are scanned. -/
theorem c8_search_path_satisfies
    {env : Dynlib.ResolveEnv} {ldPath lib p : String}
    (hhit : Dynlib.lookupSearchPaths env (Dynlib.splitList ldPath) lib =
      some p) :
    (∀ c : Dynlib.Cache,
      Dynlib.resolveOneLib env (Dynlib.splitList ldPath) c lib =
        .ok (p, true)) ∧
    (∀ (c : Dynlib.Cache) (binaries extras : List String) (fuel : Nat)
      (m : List (String × List String)),
      Dynlib.Cache.ResolveLibraries c env binaries extras ldPath fuel =
        some (.ok m) →
      ∀ q as, (q, as) ∈ m → lib ∉ as) ∧
    (∀ (c : Dynlib.Cache) (pre : List String) (st : Dynlib.RState)
      (post : List String) (st2 : Dynlib.RState),
      lib ∉ pre →
      lib ∉ st.checkedLib →
      p ∉ st.checkedFile →
      exFold (Dynlib.processLib env (Dynlib.splitList ldPath) c) st
        (pre ++ lib :: post) = .ok st2 →
      p ∈ st2.newToCheck) := by
  refine ⟨?_, ?_, ?_⟩
  · intro c
    exact resolveOneLib_ok_true env (Dynlib.splitList ldPath) c lib p hhit
  · intro c binaries extras fuel m hrun q as hmem hin
    have hlib : ∀ (st : Dynlib.RState) (l : String) (st2 : Dynlib.RState),
        lib ∉ st.libraries.map Prod.fst →
        Dynlib.processLib env (Dynlib.splitList ldPath) c st l = .ok st2 →
        lib ∉ st2.libraries.map Prod.fst := by
      intro st l st2 hP hok
      rcases (processLib_ok_more env (Dynlib.splitList ldPath) c st l st2
          hok).2 with h1 | ⟨hls, q2, h1⟩
      · rwa [h1]
      · rw [h1]
        intro hmem2
        rcases assocUpsert_keys_mem st.libraries l q2 lib hmem2 with h2 | h2
        · exact hP h2
        · rw [← h2] at hls
          rw [hhit] at hls
          exact Option.noConfusion hls
    obtain ⟨libs, hll, hdd⟩ := resolveLibraries_ok_inv hrun
    obtain ⟨stf, hPf, heq⟩ := levelLoop_ok_inv
      (fun st => lib ∉ st.libraries.map Prod.fst)
      (fun st hP => hP)
      (processFile_inv (fun st => lib ∉ st.libraries.map Prod.fst)
        (fun st fn hP => hP) hlib)
      fuel ⟨[], [], [], []⟩ (some extras) binaries libs (by simp) hll
    have hcnt := dedupFold_count env libs [] m hdd lib
    have hkeys : (libs.map Prod.fst).count lib = 0 := by
      rw [heq]; exact List.count_eq_zero.mpr hPf
    have hzero : (Dynlib.allAliases m).count lib = 0 := by
      rw [hcnt, hkeys]
      simp [Dynlib.allAliases]
    exact (List.count_eq_zero.mp hzero) (mem_allAliases hmem hin)
  · intro c pre
    induction pre with
    | nil =>
        intro st post st2 _ hcl hcf hfold
        rw [List.nil_append, exFold] at hfold
        have hcf2 : ¬(st.checkedFile.contains p = true) := by simpa using hcf
        have hpl : Dynlib.processLib env (Dynlib.splitList ldPath) c st lib =
            .ok { libraries := st.libraries,
                  checkedFile := st.checkedFile,
                  checkedLib := st.checkedLib ++ [lib],
                  newToCheck := Dynlib.addUnique st.newToCheck p } := by
          simp only [Dynlib.processLib,
            resolveOneLib_ok_true env (Dynlib.splitList ldPath) c lib p hhit]
          rw [if_neg (by simpa using hcl)]
          rw [if_neg hcf2]
          simp
        rw [hpl] at hfold
        exact exFold_inv
          (fun s l s2 hx hok => processLib_newToCheck_mono env
            (Dynlib.splitList ldPath) c s l s2 p hok hx)
          post _ st2 (addUnique_mem_self st.newToCheck p) hfold
    | cons hd tlp ih =>
        intro st post st2 hpre hcl hcf hfold
        rw [List.cons_append, exFold] at hfold
        cases hstep1 : Dynlib.processLib env (Dynlib.splitList ldPath) c st hd
          with
        | error e => rw [hstep1] at hfold; exact absurd hfold (by simp)
        | ok stm =>
            rw [hstep1] at hfold
            obtain ⟨hfe, hshape⟩ := processLib_ok_shape env
              (Dynlib.splitList ldPath) c st hd stm hstep1
            have hne : lib ≠ hd := fun he =>
              hpre (he ▸ List.mem_cons_self hd tlp)
            have hcl2 : lib ∉ stm.checkedLib := by
              rcases hshape with h1 | h1 <;> rw [h1]
              · exact hcl
              · intro hmem2
                rcases List.mem_append.mp hmem2 with h2 | h2
                · exact hcl h2
                · exact hne (List.mem_singleton.mp h2)
            have hcf2 : p ∉ stm.checkedFile := by rw [hfe]; exact hcf
            exact ih stm post st2
              (fun hm => hpre (List.mem_cons_of_mem hd hm)) hcl2 hcf2 hfold

/-- Witness for C8: `libx.so` sits in the `/opt` search-path directory; its
resolution ignores the (empty) cache, the full run omits it from the output
buckets, and the found file is enqueued for the next level. -/
theorem c8_search_path_satisfies_witness :
    Dynlib.resolveOneLib Fixtures.envSearchPath (Dynlib.splitList "/opt")
        ⟨[]⟩ "libx.so" = .ok ("/opt/libx.so", true) ∧
    "libx.so" ∉ ["liby.so"] ∧
    "/opt/libx.so" ∈
      (Dynlib.RState.mk [] [] ["libx.so"] ["/opt/libx.so"]).newToCheck :=
  ⟨(@c8_search_path_satisfies Fixtures.envSearchPath "/opt" "libx.so"
      "/opt/libx.so" rfl).1 ⟨[]⟩,
   (@c8_search_path_satisfies Fixtures.envSearchPath "/opt" "libx.so"
      "/opt/libx.so" rfl).2.1
     Fixtures.cacheY ["/bin/A"] [] 3 [("/lib/liby.so", ["liby.so"])]
     rfl "/lib/liby.so" ["liby.so"] (by decide),
   (@c8_search_path_satisfies Fixtures.envSearchPath "/opt" "libx.so"
      "/opt/libx.so" rfl).2.2
     ⟨[]⟩ [] ⟨[], [], [], []⟩ [] ⟨[], [], ["libx.so"], ["/opt/libx.so"]⟩
     (by simp) (by simp) (by simp) rfl⟩

/-- C9: in every successfully returned mapping, each alias appears in the
alias set of exactly one canonical-path bucket (the multiset of all aliases
over all buckets holds it at most once); and, with `libs` the name-to-path
map the breadth-first traversal produced (pinned by the `levelLoop`
hypothesis, exactly the `libraries` map of the source), every alias grouped
under a canonical path has its recorded resolved path — the one `libs`
holds for that alias — symlink-resolve to precisely that canonical path. -/
theorem c9_aliases_unique_and_canonical :
    ∀ (c : Dynlib.Cache) (env : Dynlib.ResolveEnv)
      (binaries extras : List String) (ldPath : String) (fuel : Nat)
      (m : List (String × List String)),
      Dynlib.Cache.ResolveLibraries c env binaries extras ldPath fuel =
        some (.ok m) →
      (∀ a, (Dynlib.allAliases m).count a ≤ 1) ∧
      (∀ libs : List (String × String),
        Dynlib.levelLoop env (Dynlib.splitList ldPath) c fuel
          ⟨[], [], [], []⟩ (some extras) binaries = some (.ok libs) →
        ∀ q as, (q, as) ∈ m → ∀ a, a ∈ as →
          ∃ rp, assocLookup libs a = some rp ∧
            env.evalSymlinks rp = .ok q) := by
  intro c env binaries extras ldPath fuel m hrun
  obtain ⟨libs0, hll0, hdd0⟩ := resolveLibraries_ok_inv hrun
  have hlib : ∀ (st : Dynlib.RState) (l : String) (st2 : Dynlib.RState),
      (st.libraries.map Prod.fst).Nodup →
      Dynlib.processLib env (Dynlib.splitList ldPath) c st l = .ok st2 →
      (st2.libraries.map Prod.fst).Nodup := by
    intro st l st2 hP hok
    rcases (processLib_ok_more env (Dynlib.splitList ldPath) c st l st2
        hok).2 with h1 | ⟨_, q2, h1⟩
    · rwa [h1]
    · rw [h1]; exact assocUpsert_keys_nodup l q2 st.libraries hP
  obtain ⟨stf, hPf, heq⟩ := levelLoop_ok_inv
    (fun st => (st.libraries.map Prod.fst).Nodup)
    (fun st hP => hP)
    (processFile_inv (fun st => (st.libraries.map Prod.fst).Nodup)
      (fun st fn hP => hP) hlib)
    fuel ⟨[], [], [], []⟩ (some extras) binaries libs0 (by simp) hll0
  have hnd : (libs0.map Prod.fst).Nodup := heq ▸ hPf
  constructor
  · intro a
    have hcnt := dedupFold_count env libs0 [] m hdd0 a
    have hle : (libs0.map Prod.fst).count a ≤ 1 :=
      List.nodup_iff_count_le_one.mp hnd a
    have h0 : (Dynlib.allAliases ([] : List (String × List String))).count a
        = 0 := by simp [Dynlib.allAliases]
    rw [hcnt, h0]
    simpa using hle
  · intro libs hll q as hmem a ha
    have heq2 : libs0 = libs := by
      rw [hll0] at hll
      injection hll with h2
      injection h2 with h3
    subst heq2
    rcases dedupFold_origin env libs0 [] m hdd0 q as hmem a ha
      with ⟨as0, hmem0, _⟩ | ⟨rp, hrp, hsym⟩
    · exact absurd hmem0 (List.not_mem_nil (q, as0))
    · exact ⟨rp, assocLookup_of_mem_nodup libs0 a rp hnd hrp, hsym⟩

/-- Witness for C9 on two aliases whose recorded paths are symlinks of the
same canonical file: the run merges them into one bucket, and the path the
working map records for `libb.so` symlink-resolves to the bucket's key. -/
theorem c9_aliases_unique_witness :
    (Dynlib.allAliases
        [("/lib/libreal.so", ["liba.so", "libb.so"])]).count "liba.so" ≤ 1 ∧
    (∃ rp, assocLookup
        [("liba.so", "/lib/liba.so"), ("libb.so", "/lib/libb.so")] "libb.so" =
          some rp ∧
      Fixtures.envAliases.evalSymlinks rp = .ok "/lib/libreal.so") :=
  ⟨(c9_aliases_unique_and_canonical Fixtures.cacheAliases Fixtures.envAliases
      ["/bin/A"] [] "" 3 [("/lib/libreal.so", ["liba.so", "libb.so"])]
      rfl).1 "liba.so",
   (c9_aliases_unique_and_canonical Fixtures.cacheAliases Fixtures.envAliases
      ["/bin/A"] [] "" 3 [("/lib/libreal.so", ["liba.so", "libb.so"])]
      rfl).2 [("liba.so", "/lib/liba.so"), ("libb.so", "/lib/libb.so")] rfl
      "/lib/libreal.so" ["liba.so", "libb.so"] (by decide)
      "libb.so" (by decide)⟩
